import Mathlib

/-!
Verification of the CSV-to-SQL converter (`csv_to_sql.py`): a shallow
embedding of the literal-inference engine (`to_sql_literal`,
`as_sql_datetime2_126`), the column-order builder (`build_columns`) and the
row-chunking loop of `main`, together with proofs of the specified
properties.

Conventions of the embedding:
* Python strings are Lean `String`s (lists of characters); `str.strip` and
  `str.upper` are modelled on their Unicode-whitespace / ASCII-letter
  behaviour, which is all the classified grammars can produce.
* The regexes `NUMERIC_RE` and `ISO_DT_RE` are anchored, so they are
  modelled as total boolean matchers over the whole string, with the regex
  class `\d` modelled as the ASCII digits.
* `datetime.fromisoformat` (CPython 3.11+ semantics) is modelled on the
  sublanguage that can reach it here - the shapes accepted by `ISO_DT_RE`
  after the midnight expansion and the `Z -> +00:00` substitution performed
  by `as_sql_datetime2_126` - returning `none` where CPython raises.
* `strftime` `%Y` is delegated by CPython to the platform C library; the
  embedding follows glibc/BSD, which print years below 1000 without zero
  padding and years 1000..9999 as four digits.
* `astimezone(timezone.utc).replace(tzinfo=None)` subtracts the offset
  (strictly less than 24 hours, so the calendar date moves by at most one
  day); it returns `none` exactly where CPython raises `OverflowError`
  (result outside years 1..9999), which the `except` clause turns into the
  verbatim fallback.
-/

/-- The single-quote character, written via its code point. -/
def qc : Char := Char.ofNat 39

/-- Unicode whitespace as stripped by Python `str.strip()`. -/
def pyIsSpace (c : Char) : Bool :=
  (decide (9 ≤ c.toNat) && decide (c.toNat ≤ 13)) || decide (c.toNat = 32) ||
  (decide (28 ≤ c.toNat) && decide (c.toNat ≤ 31)) || decide (c.toNat = 133) ||
  decide (c.toNat = 160) || decide (c.toNat = 5760) ||
  (decide (8192 ≤ c.toNat) && decide (c.toNat ≤ 8202)) || decide (c.toNat = 8232) ||
  decide (c.toNat = 8233) || decide (c.toNat = 8239) || decide (c.toNat = 8287) ||
  decide (c.toNat = 12288)

/-- Python `str.strip()` on the character list: drop whitespace from both ends. -/
def pyStripL (l : List Char) : List Char :=
  ((l.dropWhile pyIsSpace).reverse.dropWhile pyIsSpace).reverse

/-- Python `str.strip()`. -/
def pyStrip (s : String) : String := String.mk (pyStripL s.data)

/-- ASCII uppercasing of one character (`str.upper` on the letters that can
reach the `== "NULL"` comparison). -/
def upChar (c : Char) : Char :=
  if 97 ≤ c.toNat ∧ c.toNat ≤ 122 then Char.ofNat (c.toNat - 32) else c

/-- Python `str.upper()`. -/
def pyUpper (s : String) : String := String.mk (s.data.map upChar)

/-- The regex class `\d` (ASCII digits). -/
def isDig (c : Char) : Bool := decide (48 ≤ c.toNat) && decide (c.toNat ≤ 57)

/-- Numeric value of a digit character. -/
def dval (c : Char) : Nat := c.toNat - 48

/-- Matcher for `NUMERIC_RE = ^[+-]?\d+(?:\.\d+)?$` over the whole string. -/
def numericMatch (s : String) : Bool :=
  match s.data with
  | [] => false
  | c :: rest =>
    let cs1 := if c = '+' ∨ c = '-' then rest else c :: rest
    let ds := cs1.takeWhile isDig
    let tl := cs1.dropWhile isDig
    (!ds.isEmpty) &&
      (match tl with
       | [] => true
       | d :: tl2 => (d == '.') && (!tl2.isEmpty) && tl2.all isDig)

/-- Tail of `ISO_DT_RE` after the fractional seconds: `(Z|[+-]\d{2}:\d{2})?$`. -/
def isoTZEnd (cs : List Char) : Bool :=
  match cs with
  | [] => true
  | [z] => z == 'Z'
  | [c, a, b, k, d, e] =>
    ((c == '+') || (c == '-')) && isDig a && isDig b && (k == ':') && isDig d && isDig e
  | _ => false

/-- Tail of `ISO_DT_RE` after the seconds: `(\.\d{1,9})?(Z|[+-]\d{2}:\d{2})?$`. -/
def isoFracTZ (cs : List Char) : Bool :=
  match cs with
  | [] => true
  | c :: rest =>
    if c = '.' then
      (decide (1 ≤ (rest.takeWhile isDig).length)) &&
      (decide ((rest.takeWhile isDig).length ≤ 9)) &&
      isoTZEnd (rest.dropWhile isDig)
    else isoTZEnd (c :: rest)

/-- Time part of `ISO_DT_RE`: `\d{2}:\d{2}:\d{2}` followed by `isoFracTZ`. -/
def isoHMS (cs : List Char) : Bool :=
  match cs with
  | a :: b :: k1 :: c :: d :: k2 :: e :: f :: rest =>
    isDig a && isDig b && (k1 == ':') && isDig c && isDig d && (k2 == ':') &&
    isDig e && isDig f && isoFracTZ rest
  | _ => false

/-- Optional time part of `ISO_DT_RE`: `(?:T ...)?$`. -/
def isoTimeTail (cs : List Char) : Bool :=
  match cs with
  | [] => true
  | t :: rest => (t == 'T') && isoHMS rest

/-- Matcher for `ISO_DT_RE` from the fifth character on: `\d{2}-\d{2}` then the optional
time part. -/
def isoTail (cs : List Char) : Bool :=
  match cs with
  | f :: g :: h :: i :: j :: rest =>
    isDig f && isDig g && (h == '-') && isDig i && isDig j && isoTimeTail rest
  | _ => false

/-- Matcher for `ISO_DT_RE` over the whole string:
`^\d{4}-\d{2}-\d{2}(?:T\d{2}:\d{2}:\d{2}(?:\.\d{1,9})?(?:Z|[+-]\d{2}:\d{2})?)?$`. -/
def isoMatch (s : String) : Bool :=
  match s.data with
  | a :: b :: c :: d :: e :: rest =>
    isDig a && isDig b && isDig c && isDig d && (e == '-') && isoTail rest
  | _ => false

/-- The inline regex `^\d{4}-\d{2}-\d{2}$` of `as_sql_datetime2_126`. -/
def dateOnlyMatch (s : String) : Bool :=
  match s.data with
  | [a, b, c, d, e, f, g, h, i, j] =>
    isDig a && isDig b && isDig c && isDig d && (e == '-') && isDig f && isDig g &&
    (h == '-') && isDig i && isDig j
  | _ => false

/-- A parsed CPython `datetime`: calendar fields plus an optional fixed
offset in minutes. -/
structure PyDT where
  year : Nat
  month : Nat
  day : Nat
  hour : Nat
  minute : Nat
  second : Nat
  micro : Nat
  off : Option Int
deriving DecidableEq, Repr

/-- Leap years of the proleptic Gregorian calendar. -/
def isLeap (y : Nat) : Bool := (decide (y % 4 = 0) && decide (y % 100 ≠ 0)) || decide (y % 400 = 0)

/-- Days in a month, given the leap flag of the year. -/
def daysInMonth (l : Bool) (m : Nat) : Nat :=
  if m = 2 then (if l then 29 else 28)
  else if m = 4 ∨ m = 6 ∨ m = 9 ∨ m = 11 then 30
  else 31

/-- Consume one expected character. -/
def expect (c : Char) (cs : List Char) : Option (List Char) :=
  match cs with
  | a :: rest => if a = c then some rest else none
  | [] => none

/-- Read exactly two digits. -/
def read2 (cs : List Char) : Option (Nat × List Char) :=
  match cs with
  | a :: b :: rest =>
    if isDig a && isDig b then some (dval a * 10 + dval b, rest) else none
  | _ => none

/-- Read exactly four digits. -/
def read4 (cs : List Char) : Option (Nat × List Char) :=
  match cs with
  | a :: b :: c :: d :: rest =>
    if isDig a && isDig b && isDig c && isDig d then
      some (dval a * 1000 + dval b * 100 + dval c * 10 + dval d, rest)
    else none
  | _ => none

/-- Value of a digit string, most significant first. -/
def digitsVal (cs : List Char) : Nat := cs.foldl (fun a c => a * 10 + dval c) 0

/-- CPython microseconds from a fractional-seconds digit string: the first
six digits, right-padded with zeros to six; further digits are ignored. -/
def microOfFrac (ds : List Char) : Nat :=
  digitsVal (ds.take 6) * 10 ^ (6 - (ds.take 6).length)

/-- Date part `YYYY-MM-DD` of `fromisoformat`. -/
def parseDate (cs : List Char) : Option (Nat × Nat × Nat × List Char) :=
  (read4 cs).bind (fun yc =>
  (expect '-' yc.2).bind (fun cs1 =>
  (read2 cs1).bind (fun mc =>
  (expect '-' mc.2).bind (fun cs2 =>
  (read2 cs2).map (fun dc2 => (yc.1, mc.1, dc2.1, dc2.2))))))

/-- Optional fractional seconds of `fromisoformat`. -/
def parseFracOpt (cs : List Char) : Option (Nat × List Char) :=
  match cs with
  | [] => some (0, [])
  | c :: rest =>
    if c = '.' then
      (if (rest.takeWhile isDig).isEmpty then none
       else some (microOfFrac (rest.takeWhile isDig), rest.dropWhile isDig))
    else some (0, c :: rest)

/-- Trailing timezone of `fromisoformat`: end of input, `Z`, or `[+-]HH:MM`
consuming the rest of the string; the offset is returned in minutes. -/
def parseTZEnd (cs : List Char) : Option (Option Int) :=
  match cs with
  | [] => some none
  | c :: rest =>
    if c = 'Z' then (if rest.isEmpty then some (some 0) else none)
    else if c = '+' ∨ c = '-' then
      (read2 rest).bind (fun ohR =>
      (expect ':' ohR.2).bind (fun cs1 =>
      (read2 cs1).bind (fun omR =>
        if omR.2.isEmpty then
          some (some (if c = '+' then ((ohR.1 * 60 + omR.1 : Nat) : Int)
                      else -((ohR.1 * 60 + omR.1 : Nat) : Int)))
        else none)))
    else none

/-- The shape grammar of `fromisoformat` on the strings reachable here:
`YYYY-MM-DD` optionally followed by `THH:MM:SS`, fractional seconds and a
trailing offset.  Field validation is done separately by `validB`. -/
def parseShape (cs : List Char) : Option PyDT :=
  (parseDate cs).bind (fun q =>
    match q.2.2.2 with
    | [] => some ⟨q.1, q.2.1, q.2.2.1, 0, 0, 0, 0, none⟩
    | c :: rest =>
      if c = 'T' then
        (read2 rest).bind (fun hR =>
        (expect ':' hR.2).bind (fun cs1 =>
        (read2 cs1).bind (fun miR =>
        (expect ':' miR.2).bind (fun cs2 =>
        (read2 cs2).bind (fun sR =>
        (parseFracOpt sR.2).bind (fun fR =>
        (parseTZEnd fR.2).map (fun o =>
          ⟨q.1, q.2.1, q.2.2.1, hR.1, miR.1, sR.1, fR.1, o⟩)))))))
      else none)

/-- The range checks CPython performs when constructing the `datetime` and
its `timezone` (offset strictly within 24 hours). -/
def offOK (o : Option Int) : Bool :=
  match o with
  | none => true
  | some x => decide (x.natAbs < 1440)

/-- Field validation of a parsed `datetime`. -/
def validB (dt : PyDT) : Bool :=
  decide (1 ≤ dt.year) && decide (dt.year ≤ 9999) &&
  decide (1 ≤ dt.month) && decide (dt.month ≤ 12) &&
  decide (1 ≤ dt.day) && decide (dt.day ≤ daysInMonth (isLeap dt.year) dt.month) &&
  decide (dt.hour ≤ 23) && decide (dt.minute ≤ 59) && decide (dt.second ≤ 59) &&
  decide (dt.micro < 1000000) && offOK dt.off

/-- CPython `datetime.fromisoformat` on the sublanguage produced by the pattern
gate: parse the shape, then validate; `none` models a raised `ValueError`. -/
def fromisoformatOpt (s : String) : Option PyDT :=
  match parseShape s.data with
  | some dt => if validB dt then some dt else none
  | none => none

/-- Next calendar day, `none` past the maximum representable date. -/
def nextDayO (y m d : Nat) : Option (Nat × Nat × Nat) :=
  if d < daysInMonth (isLeap y) m then some (y, m, d + 1)
  else if m < 12 then some (y, m + 1, 1)
  else if y < 9999 then some (y + 1, 1, 1)
  else none

/-- Previous calendar day, `none` before the minimum representable date. -/
def prevDayO (y m d : Nat) : Option (Nat × Nat × Nat) :=
  if 1 < d then some (y, m, d - 1)
  else if 1 < m then some (y, m - 1, daysInMonth (isLeap y) (m - 1))
  else if 1 < y then some (y - 1, 12, 31)
  else none

/-- Model of `dt.astimezone(timezone.utc).replace(tzinfo=None)` for an aware
datetime, the identity for a naive one.  Subtracting an offset of magnitude
below 24 hours moves the date by at most one day; `none` models the
`OverflowError` CPython raises when the result leaves years 1..9999. -/
def toUTCOpt (dt : PyDT) : Option PyDT :=
  match dt.off with
  | none => some dt
  | some x =>
    let t : Int := (dt.hour : Int) * 60 + dt.minute - x
    if t < 0 then
      match prevDayO dt.year dt.month dt.day with
      | some (y, m, d) =>
        some ⟨y, m, d, (t + 1440).toNat / 60, (t + 1440).toNat % 60, dt.second, dt.micro, none⟩
      | none => none
    else if 1440 ≤ t then
      match nextDayO dt.year dt.month dt.day with
      | some (y, m, d) =>
        some ⟨y, m, d, (t - 1440).toNat / 60, (t - 1440).toNat % 60, dt.second, dt.micro, none⟩
      | none => none
    else
      some ⟨dt.year, dt.month, dt.day, t.toNat / 60, t.toNat % 60, dt.second, dt.micro, none⟩

/-- Digit character of a value below ten. -/
def dc (n : Nat) : Char :=
  match n with
  | 0 => '0'
  | 1 => '1'
  | 2 => '2'
  | 3 => '3'
  | 4 => '4'
  | 5 => '5'
  | 6 => '6'
  | 7 => '7'
  | 8 => '8'
  | _ => '9'

/-- Two-digit zero-padded rendering (`%m`, `%d`, `%H`, `%M`, `%S`). -/
def pad2 (n : Nat) : List Char := [dc (n / 10 % 10), dc (n % 10)]

/-- Four-digit zero-padded rendering (`%Y` for years up to 9999). -/
def pad4 (n : Nat) : List Char :=
  [dc (n / 1000 % 10), dc (n / 100 % 10), dc (n / 10 % 10), dc (n % 10)]

/-- Six-digit zero-padded rendering (`%f`). -/
def pad6 (n : Nat) : List Char :=
  [dc (n / 100000 % 10), dc (n / 10000 % 10), dc (n / 1000 % 10),
   dc (n / 100 % 10), dc (n / 10 % 10), dc (n % 10)]

/-- Platform `strftime` rendering of `%Y` (glibc/BSD): the year in plain
decimal, so years below 1000 are NOT zero-padded; four digits otherwise. -/
def yearChars (y : Nat) : List Char :=
  if y < 10 then [dc (y % 10)]
  else if y < 100 then [dc (y / 10 % 10), dc (y % 10)]
  else if y < 1000 then [dc (y / 100 % 10), dc (y / 10 % 10), dc (y % 10)]
  else pad4 y

/-- Rendering `strftime("%Y-%m-%dT%H:%M:%S")`: the text before the decimal
point, with the platform-dependent unpadded `%Y` for years below 1000. -/
def strfSec (dt : PyDT) : List Char :=
  yearChars dt.year ++ '-' :: pad2 dt.month ++ '-' :: pad2 dt.day ++ 'T' :: pad2 dt.hour ++
    ':' :: pad2 dt.minute ++ ':' :: pad2 dt.second

/-- The fractional text `(frac + "0")[:7]` built from the six `%f` digits. -/
def frac7 (micro : Nat) : List Char := (pad6 micro ++ [dc 0]).take 7

/-- The normalized text: `strftime("%Y-%m-%dT%H:%M:%S.%f")`, split at the
single decimal point and recombined with the fraction padded to 7 digits. -/
def strfFrac7 (dt : PyDT) : String := String.mk (strfSec dt ++ '.' :: frac7 dt.micro)

/-- Wrap a text in `CONVERT(datetime2(7), '...', 126)`. -/
def convWrap (t : String) : String :=
  String.mk ("CONVERT(datetime2(7), ".data ++ qc :: t.data ++ qc :: ", 126)".data)

/-- Midnight expansion `v += "T00:00:00"` when the inline date-only regex matches. -/
def dateFix (s : String) : String :=
  if dateOnlyMatch s then s ++ "T00:00:00" else s

/-- Substitution `v = v[:-1] + "+00:00"` when the text ends in `Z`. -/
def zFix (s : String) : String :=
  match s.data.getLast? with
  | some c => if c = 'Z' then String.mk (s.data.dropLast ++ "+00:00".data) else s
  | none => s

/-- The text `as_sql_datetime2_126` hands to `fromisoformat`: strip, expand a
bare date to midnight, replace a trailing `Z` by `+00:00`. -/
def preNormalize (s : String) : String := zFix (dateFix (pyStrip s))

/-- Function `as_sql_datetime2_126`: on parse success, normalize to UTC and render
with a 7-digit fraction; on any raised error (`none` from the parse or the
conversion), fall back to the pre-normalized text; always wrap in the
`CONVERT` expression. -/
def as_sql_datetime2_126 (s : String) : String :=
  match fromisoformatOpt (preNormalize s) with
  | some dt =>
    match toUTCOpt dt with
    | some du => convWrap (strfFrac7 du)
    | none => convWrap (preNormalize s)
  | none => convWrap (preNormalize s)

/-- Quote escaping: replace each single-quote character by two of them. -/
def escQ : List Char → List Char
  | [] => []
  | c :: r => if c = qc then qc :: qc :: escQ r else c :: escQ r

/-- Function `to_sql_literal`: NULL sentinel, ISO date/time, numeric pass-through,
or escaped `N'...'` string, in that order. -/
def to_sql_literal (val : Option String) : String :=
  match val with
  | none => "NULL"
  | some s =>
    if pyStrip s = "" ∨ pyUpper (pyStrip s) = "NULL" then "NULL"
    else if isoMatch (pyStrip s) then as_sql_datetime2_126 (pyStrip s)
    else if numericMatch (pyStrip s) then pyStrip s
    else String.mk ('N' :: qc :: (escQ (pyStrip s).data ++ [qc]))

/-- Function `build_columns`: drop falsy and excluded names from the header; if an id
column is named (truthy) and UUID generation is on, place it first, removing
any other occurrence. -/
def build_columns (csvColumns : List String) (exclude : List String)
    (idColumn : Option String) (generateUUID : Bool) : List String :=
  let cols := csvColumns.filter (fun c => decide (c ≠ "" ∧ c ∉ exclude))
  match idColumn with
  | none => cols
  | some k =>
    if (!(k == "")) && generateUUID then
      if k ∈ cols then k :: cols.filter (fun c => decide (c ≠ k)) else k :: cols
    else cols

/-- Normalization `max(1, int(args.chunk_size))` in `main`. -/
def effective_chunk_size (c : Int) : Nat := (max 1 c).toNat

/-- Chunk count `math.ceil(total / chunk_size)` for a positive chunk size. -/
def mainParts (total cs : Nat) : Nat := (total + cs - 1) / cs

/-- The chunking loop of `main`: chunk `i` (0-based here, 1-based only in
the output file names) is the slice `all_rows[i*cs : min(i*cs+cs, total)]`. -/
def mainChunks {α : Type} (rows : List α) (cs : Nat) : List (List α) :=
  (List.range (mainParts rows.length cs)).map
    (fun i => (rows.drop (i * cs)).take (min (i * cs + cs) rows.length - i * cs))

/-- Modelled from the spec: the inverse transformation of claim C5 - strip
the `N'...'` delimiters and collapse every doubled quote; `none` when the
text is not a well-formed quoted literal. -/
def collapseQ : List Char → Option (List Char)
  | [] => some []
  | [c] => if c = qc then none else some [c]
  | c :: c2 :: r =>
    if c = qc then
      (if c2 = qc then (collapseQ r).map (fun l => qc :: l) else none)
    else (collapseQ (c2 :: r)).map (fun l => c :: l)

/-- Modelled from the spec: undo `to_sql_literal`'s string rendering - peel
`N'` and the closing quote, then collapse doubled quotes. -/
def unescapeN (t : String) : Option String :=
  match t.data with
  | a :: c :: rest =>
    if a = 'N' ∧ c = qc then
      match rest.getLast? with
      | some l2 =>
        if l2 = qc then (collapseQ rest.dropLast).map (fun l => String.mk l) else none
      | none => none
    else none
  | _ => none

/-- The maximal digit suffix of a rendered text (its fractional-second
digits when it ends in a fraction). -/
def fracOf (t : String) : List Char := (t.data.reverse.takeWhile isDig).reverse

/-- The text between the quotes of a `CONVERT(datetime2(7), '...', 126)`
expression: drop the 23-character prefix and the 7-character suffix. -/
def embeddedText (out : String) : String :=
  String.mk ((out.data.drop 23).take ((out.data.drop 23).length - 7))

/-- Days before year `y` since the proleptic day 0 (years count from 1). -/
def daysInYear (y : Nat) : Nat := if isLeap y then 366 else 365

def daysBeforeYear : Nat → Nat
  | 0 => 0
  | 1 => 0
  | (y + 2) => daysBeforeYear (y + 1) + daysInYear (y + 1)

def daysBeforeMonth (l : Bool) : Nat → Nat
  | 0 => 0
  | 1 => 0
  | (m + 2) => daysBeforeMonth l (m + 1) + daysInMonth l (m + 1)

/-- Day number of a calendar date (day 1 is 0001-01-01). -/
def totalDays (y m d : Nat) : Nat :=
  daysBeforeYear y + daysBeforeMonth (isLeap y) m + d

/-- The instant of a datetime, measured in minutes (seconds and
microseconds are unaffected by offset conversion and tracked separately). -/
def instantMin (dt : PyDT) : Int :=
  (totalDays dt.year dt.month dt.day : Int) * 1440 + dt.hour * 60 + dt.minute

/-! ### Character and digit basics -/

theorem isDig_iff (c : Char) : isDig c = true ↔ 48 ≤ c.toNat ∧ c.toNat ≤ 57 := by
  simp [isDig]

theorem isDig_dc (k : Nat) (h : k ≤ 9) : isDig (dc k) = true := by
  interval_cases k <;> decide

theorem dval_dc (k : Nat) (h : k ≤ 9) : dval (dc k) = k := by
  interval_cases k <;> decide

theorem not_space_of_range (c : Char) (h1 : 43 ≤ c.toNat) (h2 : c.toNat ≤ 57) :
    pyIsSpace c = false := by
  simp only [pyIsSpace, Bool.or_eq_false_iff, Bool.and_eq_false_iff,
    decide_eq_false_iff_not]
  omega

theorem not_space_of_numchar (c : Char)
    (h : c = '+' ∨ c = '-' ∨ c = '.' ∨ isDig c = true) : pyIsSpace c = false := by
  rcases h with rfl | rfl | rfl | hd
  · decide
  · decide
  · decide
  · rcases (isDig_iff c).mp hd with ⟨h1, h2⟩
    exact not_space_of_range c (by omega) h2

/-! ### List helpers -/

theorem dropWhile_eq_self (p : Char → Bool) (l : List Char)
    (h : ∀ c ∈ l, p c = false) : l.dropWhile p = l := by
  cases l with
  | nil => rfl
  | cons c t => simp [List.dropWhile_cons, h c (List.mem_cons_self c t)]

theorem pyStripL_eq_self (l : List Char) (h : ∀ c ∈ l, pyIsSpace c = false) :
    pyStripL l = l := by
  unfold pyStripL
  rw [dropWhile_eq_self _ _ h,
    dropWhile_eq_self _ _ (fun c hc => h c (List.mem_reverse.mp hc)),
    List.reverse_reverse]

theorem takeWhile_all (p : Char → Bool) (l : List Char)
    (h : ∀ c ∈ l, p c = true) : l.takeWhile p = l := by
  induction l with
  | nil => rfl
  | cons c t ih =>
    simp [List.takeWhile_cons, h c (List.mem_cons_self c t),
      ih (fun x hx => h x (List.mem_cons_of_mem c hx))]

theorem dropWhile_all (p : Char → Bool) (l : List Char)
    (h : ∀ c ∈ l, p c = true) : l.dropWhile p = [] := by
  induction l with
  | nil => rfl
  | cons c t ih =>
    simp [List.dropWhile_cons, h c (List.mem_cons_self c t),
      ih (fun x hx => h x (List.mem_cons_of_mem c hx))]

theorem takeWhile_append_not (p : Char → Bool) (l : List Char) (c : Char) (r : List Char)
    (hl : ∀ x ∈ l, p x = true) (hc : p c = false) :
    (l ++ c :: r).takeWhile p = l := by
  induction l with
  | nil => simp [List.takeWhile_cons, hc]
  | cons a t ih =>
    simp [List.takeWhile_cons, hl a (List.mem_cons_self a t),
      ih (fun x hx => hl x (List.mem_cons_of_mem a hx))]

theorem dropWhile_append_not (p : Char → Bool) (l : List Char) (c : Char) (r : List Char)
    (hl : ∀ x ∈ l, p x = true) (hc : p c = false) :
    (l ++ c :: r).dropWhile p = c :: r := by
  induction l with
  | nil => simp [List.dropWhile_cons, hc]
  | cons a t ih =>
    simp [List.dropWhile_cons, hl a (List.mem_cons_self a t),
      ih (fun x hx => hl x (List.mem_cons_of_mem a hx))]

theorem drop_append_cons {α : Type} (l : List α) (c : α) (r : List α) :
    (l ++ c :: r).drop (l.length + 1) = r := by
  induction l with
  | nil => rfl
  | cons a t ih => simp [ih]

theorem take_append_self {α : Type} (l r : List α) : (l ++ r).take l.length = l := by
  induction l with
  | nil => rfl
  | cons a t ih => simp [ih]

theorem take_eq_of_min {α : Type} (l : List α) (m n : Nat)
    (h : min m l.length = min n l.length) : l.take m = l.take n := by
  induction l generalizing m n with
  | nil => simp
  | cons a t ih =>
    cases m with
    | zero =>
      cases n with
      | zero => rfl
      | succ n => simp at h; omega
    | succ m =>
      cases n with
      | zero => simp at h
      | succ n =>
        simp only [List.take_succ_cons, List.length_cons] at *
        rw [ih m n (by omega)]

/-! ### Formatting and parsing round trips for the digit fields -/

theorem read2_pad2 (n : Nat) (rest : List Char) (h : n ≤ 99) :
    read2 (pad2 n ++ rest) = some (n, rest) := by
  have h1 := isDig_dc (n / 10 % 10) (by omega)
  have h2 := isDig_dc (n % 10) (by omega)
  have e1 := dval_dc (n / 10 % 10) (by omega)
  have e2 := dval_dc (n % 10) (by omega)
  simp only [pad2, List.cons_append, List.nil_append, read2, h1, h2, e1, e2,
    Bool.and_self, if_true, Option.some.injEq, Prod.mk.injEq, and_true]
  omega

theorem read4_pad4 (n : Nat) (rest : List Char) (h : n ≤ 9999) :
    read4 (pad4 n ++ rest) = some (n, rest) := by
  have h1 := isDig_dc (n / 1000 % 10) (by omega)
  have h2 := isDig_dc (n / 100 % 10) (by omega)
  have h3 := isDig_dc (n / 10 % 10) (by omega)
  have h4 := isDig_dc (n % 10) (by omega)
  have e1 := dval_dc (n / 1000 % 10) (by omega)
  have e2 := dval_dc (n / 100 % 10) (by omega)
  have e3 := dval_dc (n / 10 % 10) (by omega)
  have e4 := dval_dc (n % 10) (by omega)
  simp only [pad4, List.cons_append, List.nil_append, read4, h1, h2, h3, h4, e1, e2, e3, e4,
    Bool.and_self, if_true, Option.some.injEq, Prod.mk.injEq, and_true]
  omega

theorem expect_cons_self (c : Char) (rest : List Char) :
    expect c (c :: rest) = some rest := by
  simp [expect]

theorem pad6_all_isDig (m : Nat) : ∀ c ∈ pad6 m, isDig c = true := by
  intro c hc
  simp only [pad6, List.mem_cons, List.not_mem_nil, or_false] at hc
  rcases hc with rfl | rfl | rfl | rfl | rfl | rfl <;> exact isDig_dc _ (by omega)

theorem digitsVal_pad6 (m : Nat) (h : m < 1000000) : digitsVal (pad6 m) = m := by
  have e1 := dval_dc (m / 100000 % 10) (by omega)
  have e2 := dval_dc (m / 10000 % 10) (by omega)
  have e3 := dval_dc (m / 1000 % 10) (by omega)
  have e4 := dval_dc (m / 100 % 10) (by omega)
  have e5 := dval_dc (m / 10 % 10) (by omega)
  have e6 := dval_dc (m % 10) (by omega)
  simp only [digitsVal, pad6, List.foldl_cons, List.foldl_nil, e1, e2, e3, e4, e5, e6]
  omega

theorem frac7_eq (m : Nat) : frac7 m = pad6 m ++ [dc 0] := by
  have hl : (pad6 m ++ [dc 0]).length = 7 := by simp [pad6]
  rw [frac7, ← hl, List.take_length]

theorem frac7_all_isDig (m : Nat) : ∀ c ∈ frac7 m, isDig c = true := by
  intro c hc
  rw [frac7_eq] at hc
  rcases List.mem_append.mp hc with h1 | h2
  · exact pad6_all_isDig m c h1
  · simp only [List.mem_singleton] at h2
    subst h2; exact isDig_dc 0 (by omega)

theorem frac7_length (m : Nat) : (frac7 m).length = 7 := by
  rw [frac7_eq]; simp [pad6]

theorem microOfFrac_frac7 (m : Nat) (h : m < 1000000) : microOfFrac (frac7 m) = m := by
  have ht : (frac7 m).take 6 = pad6 m := by
    rw [frac7_eq]
    have hl : (pad6 m).length = 6 := by simp [pad6]
    rw [← hl, take_append_self]
  rw [microOfFrac, ht, digitsVal_pad6 m h]
  simp [pad6]

/-! ### Calendar arithmetic -/

theorem daysInMonth_pos (l : Bool) (m : Nat) : 1 ≤ daysInMonth l m := by
  unfold daysInMonth
  split_ifs <;> omega

theorem daysInMonth_le (l : Bool) (m : Nat) : daysInMonth l m ≤ 31 := by
  unfold daysInMonth
  split_ifs <;> omega

theorem daysBeforeMonth_step (l : Bool) (m : Nat) (h : 1 ≤ m) :
    daysBeforeMonth l (m + 1) = daysBeforeMonth l m + daysInMonth l m := by
  obtain ⟨k, rfl⟩ : ∃ k, m = k + 1 := ⟨m - 1, by omega⟩
  rfl

theorem daysBeforeYear_step (y : Nat) (h : 1 ≤ y) :
    daysBeforeYear (y + 1) = daysBeforeYear y + daysInYear y := by
  obtain ⟨k, rfl⟩ : ∃ k, y = k + 1 := ⟨y - 1, by omega⟩
  rfl

theorem daysBeforeMonth_year (l : Bool) :
    daysBeforeMonth l 12 + daysInMonth l 12 = (if l then 366 else 365) := by
  cases l <;> decide

theorem daysInMonth_12 (l : Bool) : daysInMonth l 12 = 31 := by
  cases l <;> decide

theorem daysInYear_split (y : Nat) :
    daysBeforeMonth (isLeap y) 12 + daysInMonth (isLeap y) 12 = daysInYear y := by
  rw [daysBeforeMonth_year]; rfl

theorem nextDayO_spec (y m d y2 m2 d2 : Nat)
    (hy1 : 1 ≤ y) (hy2 : y ≤ 9999) (hm1 : 1 ≤ m) (hm2 : m ≤ 12) (hd1 : 1 ≤ d)
    (hd2 : d ≤ daysInMonth (isLeap y) m)
    (he : nextDayO y m d = some (y2, m2, d2)) :
    1 ≤ y2 ∧ y2 ≤ 9999 ∧ 1 ≤ m2 ∧ m2 ≤ 12 ∧ 1 ≤ d2 ∧
      d2 ≤ daysInMonth (isLeap y2) m2 ∧ totalDays y2 m2 d2 = totalDays y m d + 1 := by
  unfold nextDayO at he
  split_ifs at he with h1 h2 h3
  · simp only [Option.some.injEq, Prod.mk.injEq] at he
    obtain ⟨rfl, rfl, rfl⟩ := he
    exact ⟨hy1, hy2, hm1, hm2, by omega, by omega, by unfold totalDays; omega⟩
  · simp only [Option.some.injEq, Prod.mk.injEq] at he
    obtain ⟨rfl, rfl, rfl⟩ := he
    have hstep := daysBeforeMonth_step (isLeap y) m hm1
    have hdm := daysInMonth_pos (isLeap y) (m + 1)
    refine ⟨hy1, hy2, by omega, by omega, by omega, hdm, ?_⟩
    unfold totalDays
    omega
  · simp only [Option.some.injEq, Prod.mk.injEq] at he
    obtain ⟨rfl, rfl, rfl⟩ := he
    have hm12 : m = 12 := by omega
    subst hm12
    have hdim : daysInMonth (isLeap y) 12 = 31 := daysInMonth_12 _
    rw [hdim] at hd2 h1
    have hd31 : d = 31 := by omega
    subst hd31
    have hstep := daysBeforeYear_step y hy1
    have hyear := daysInYear_split y
    have hdm := daysInMonth_pos (isLeap (y + 1)) 1
    refine ⟨by omega, by omega, by omega, by omega, by omega, hdm, ?_⟩
    have h0 : daysBeforeMonth (isLeap (y + 1)) 1 = 0 := rfl
    unfold totalDays
    rw [h0, hstep]
    omega

theorem prevDayO_spec (y m d y2 m2 d2 : Nat)
    (hy1 : 1 ≤ y) (hy2 : y ≤ 9999) (hm1 : 1 ≤ m) (hm2 : m ≤ 12) (hd1 : 1 ≤ d)
    (hd2 : d ≤ daysInMonth (isLeap y) m)
    (he : prevDayO y m d = some (y2, m2, d2)) :
    1 ≤ y2 ∧ y2 ≤ 9999 ∧ 1 ≤ m2 ∧ m2 ≤ 12 ∧ 1 ≤ d2 ∧
      d2 ≤ daysInMonth (isLeap y2) m2 ∧ totalDays y2 m2 d2 + 1 = totalDays y m d := by
  unfold prevDayO at he
  split_ifs at he with h1 h2 h3
  · simp only [Option.some.injEq, Prod.mk.injEq] at he
    obtain ⟨rfl, rfl, rfl⟩ := he
    exact ⟨hy1, hy2, hm1, hm2, by omega, by omega, by unfold totalDays; omega⟩
  · simp only [Option.some.injEq, Prod.mk.injEq] at he
    obtain ⟨rfl, rfl, rfl⟩ := he
    have hstep : daysBeforeMonth (isLeap y) ((m - 1) + 1) =
        daysBeforeMonth (isLeap y) (m - 1) + daysInMonth (isLeap y) (m - 1) :=
      daysBeforeMonth_step (isLeap y) (m - 1) (by omega)
    have hm' : (m - 1) + 1 = m := by omega
    rw [hm'] at hstep
    have hdm := daysInMonth_pos (isLeap y) (m - 1)
    refine ⟨hy1, hy2, by omega, by omega, by omega, by omega, ?_⟩
    have hd' : d = 1 := by omega
    subst hd'
    unfold totalDays
    omega
  · simp only [Option.some.injEq, Prod.mk.injEq] at he
    obtain ⟨rfl, rfl, rfl⟩ := he
    have hd' : d = 1 := by omega
    have hm' : m = 1 := by omega
    subst hd'; subst hm'
    have hstep : daysBeforeYear ((y - 1) + 1) = daysBeforeYear (y - 1) + daysInYear (y - 1) :=
      daysBeforeYear_step (y - 1) (by omega)
    have hy' : (y - 1) + 1 = y := by omega
    rw [hy'] at hstep
    have hyear := daysInYear_split (y - 1)
    have hdim : daysInMonth (isLeap (y - 1)) 12 = 31 := daysInMonth_12 _
    refine ⟨by omega, by omega, by omega, by omega, by omega, by rw [hdim], ?_⟩
    have h0 : daysBeforeMonth (isLeap y) 1 = 0 := rfl
    unfold totalDays
    rw [h0, hstep]
    omega

/-! ### Validity and the UTC conversion -/

theorem validB_elim (dt : PyDT) (h : validB dt = true) :
    1 ≤ dt.year ∧ dt.year ≤ 9999 ∧ 1 ≤ dt.month ∧ dt.month ≤ 12 ∧ 1 ≤ dt.day ∧
    dt.day ≤ daysInMonth (isLeap dt.year) dt.month ∧ dt.hour ≤ 23 ∧ dt.minute ≤ 59 ∧
    dt.second ≤ 59 ∧ dt.micro < 1000000 ∧ offOK dt.off = true := by
  simp only [validB, Bool.and_eq_true, decide_eq_true_eq] at h
  tauto

theorem validB_intro (dt : PyDT)
    (h : 1 ≤ dt.year ∧ dt.year ≤ 9999 ∧ 1 ≤ dt.month ∧ dt.month ≤ 12 ∧ 1 ≤ dt.day ∧
      dt.day ≤ daysInMonth (isLeap dt.year) dt.month ∧ dt.hour ≤ 23 ∧ dt.minute ≤ 59 ∧
      dt.second ≤ 59 ∧ dt.micro < 1000000 ∧ offOK dt.off = true) : validB dt = true := by
  simp only [validB, Bool.and_eq_true, decide_eq_true_eq]
  tauto

theorem parse_validB (v : String) (dt : PyDT) (h : fromisoformatOpt v = some dt) :
    validB dt = true := by
  unfold fromisoformatOpt at h
  cases hps : parseShape v.data with
  | none => rw [hps] at h; simp at h
  | some d0 =>
    rw [hps] at h
    by_cases hv : validB d0 = true
    · simp only [hv, if_true, Option.some.injEq] at h
      subst h; exact hv
    · simp only [Bool.not_eq_true] at hv
      simp [hv] at h

theorem toUTC_spec (dt du : PyDT) (x : Int)
    (hv : validB dt = true) (ho : dt.off = some x) (hu : toUTCOpt dt = some du) :
    validB du = true ∧ du.off = none ∧ du.second = dt.second ∧ du.micro = dt.micro ∧
      instantMin du = instantMin dt - x := by
  obtain ⟨hy1, hy2, hm1, hm2, hd1, hd2, hh, hmi, hs, hmc, hoo⟩ := validB_elim dt hv
  rw [ho] at hoo
  have hx : x.natAbs < 1440 := by simpa [offOK] using hoo
  simp only [toUTCOpt, ho] at hu
  split_ifs at hu with h1 h2
  · cases hp : prevDayO dt.year dt.month dt.day with
    | none => rw [hp] at hu; simp at hu
    | some tr =>
      obtain ⟨y, m, d⟩ := tr
      rw [hp] at hu
      simp only [Option.some.injEq] at hu
      subst hu
      obtain ⟨gy1, gy2, gm1, gm2, gd1, gd2, gtd⟩ :=
        prevDayO_spec dt.year dt.month dt.day y m d hy1 hy2 hm1 hm2 hd1 hd2 hp
      refine ⟨validB_intro _ ⟨gy1, gy2, gm1, gm2, gd1, gd2, by simp; omega, by simp; omega,
        hs, hmc, rfl⟩, rfl, rfl, rfl, ?_⟩
      simp only [instantMin]
      omega
  · cases hp : nextDayO dt.year dt.month dt.day with
    | none => rw [hp] at hu; simp at hu
    | some tr =>
      obtain ⟨y, m, d⟩ := tr
      rw [hp] at hu
      simp only [Option.some.injEq] at hu
      subst hu
      obtain ⟨gy1, gy2, gm1, gm2, gd1, gd2, gtd⟩ :=
        nextDayO_spec dt.year dt.month dt.day y m d hy1 hy2 hm1 hm2 hd1 hd2 hp
      refine ⟨validB_intro _ ⟨gy1, gy2, gm1, gm2, gd1, gd2, by simp; omega, by simp; omega,
        hs, hmc, rfl⟩, rfl, rfl, rfl, ?_⟩
      simp only [instantMin]
      omega
  · simp only [Option.some.injEq] at hu
    subst hu
    refine ⟨validB_intro _ ⟨hy1, hy2, hm1, hm2, hd1, hd2, by simp; omega, by simp; omega,
      hs, hmc, rfl⟩, rfl, rfl, rfl, ?_⟩
    simp only [instantMin]
    omega

/-! ### Reparsing the rendered text -/

theorem parseDate_pad (y mo d : Nat) (rest : List Char)
    (hy : y ≤ 9999) (hmo : mo ≤ 99) (hd : d ≤ 99) :
    parseDate (pad4 y ++ '-' :: (pad2 mo ++ '-' :: (pad2 d ++ rest))) =
      some (y, mo, d, rest) := by
  unfold parseDate
  rw [read4_pad4 y _ hy]
  simp only [Option.bind, expect_cons_self]
  rw [read2_pad2 mo _ hmo]
  simp only [Option.bind, expect_cons_self]
  rw [read2_pad2 d _ hd]
  simp only [Option.map]

theorem frac7_not_isEmpty (m : Nat) : (frac7 m).isEmpty = false := by
  have := frac7_length m
  cases he : frac7 m with
  | nil => rw [he] at this; simp at this
  | cons a t => simp [List.isEmpty]

theorem parseFracOpt_frac7 (m : Nat) (h : m < 1000000) :
    parseFracOpt ('.' :: frac7 m) = some (m, []) := by
  simp only [parseFracOpt, takeWhile_all isDig (frac7 m) (frac7_all_isDig m),
    dropWhile_all isDig (frac7 m) (frac7_all_isDig m), if_true]
  simp [frac7_not_isEmpty, microOfFrac_frac7 m h]

theorem yearChars_eq_pad4 (y : Nat) (h : 1000 ≤ y) : yearChars y = pad4 y := by
  unfold yearChars
  rw [if_neg (by omega), if_neg (by omega), if_neg (by omega)]

theorem parse_strf (du : PyDT) (hv : validB du = true) (ho : du.off = none)
    (hy : 1000 ≤ du.year) :
    fromisoformatOpt (strfFrac7 du) = some du := by
  obtain ⟨hy1, hy2, hm1, hm2, hd1, hd2, hh, hmi, hs, hmc, _⟩ := validB_elim du hv
  have hdim := daysInMonth_le (isLeap du.year) du.month
  obtain ⟨y, mo, d, h, mi, s, mc, o⟩ := du
  simp only at hy1 hy2 hm1 hm2 hd1 hd2 hh hmi hs hmc hdim hy
  simp only at ho
  subst ho
  have hps : parseShape (strfFrac7 ⟨y, mo, d, h, mi, s, mc, none⟩).data =
      some ⟨y, mo, d, h, mi, s, mc, none⟩ := by
    show parseShape (strfSec ⟨y, mo, d, h, mi, s, mc, none⟩ ++ '.' :: frac7 mc) = _
    simp only [strfSec, List.append_assoc, List.cons_append]
    rw [yearChars_eq_pad4 y hy]
    unfold parseShape
    rw [parseDate_pad y mo d _ hy2 (by omega) (by omega)]
    simp only [Option.bind, if_true]
    rw [read2_pad2 h _ (by omega)]
    simp only [Option.bind, expect_cons_self]
    rw [read2_pad2 mi _ (by omega)]
    simp only [Option.bind, expect_cons_self]
    rw [read2_pad2 s _ (by omega)]
    simp only [Option.bind]
    rw [parseFracOpt_frac7 mc hmc]
    simp only [Option.bind, parseTZEnd, Option.map]
  unfold fromisoformatOpt
  rw [hps]
  simp [hv]

theorem embeddedText_convWrap (t : String) : embeddedText (convWrap t) = t := by
  unfold embeddedText
  rw [show (convWrap t).data =
    "CONVERT(datetime2(7), ".data ++ qc :: (t.data ++ qc :: ", 126)".data) from rfl]
  have h23 : (23 : Nat) = ("CONVERT(datetime2(7), ".data).length + 1 := by decide
  rw [h23]
  rw [drop_append_cons ("CONVERT(datetime2(7), ".data) qc (t.data ++ qc :: ", 126)".data)]
  have hlen : (t.data ++ qc :: ", 126)".data).length - 7 = t.data.length := by
    simp [List.length_append]
  rw [hlen, take_append_self]

theorem fracOf_strfFrac7 (du : PyDT) : fracOf (strfFrac7 du) = frac7 du.micro := by
  unfold fracOf strfFrac7
  show (((strfSec du ++ '.' :: frac7 du.micro).reverse).takeWhile isDig).reverse = _
  rw [List.reverse_append, List.reverse_cons, List.append_assoc]
  simp only [List.singleton_append]
  rw [takeWhile_append_not isDig _ '.' _
    (fun x hx => frac7_all_isDig _ x (List.mem_reverse.mp hx)) (by decide)]
  exact List.reverse_reverse _

/-- Claim C1 (amended): for an input whose stripped form matches the ISO
pattern, parses to an aware datetime, whose UTC conversion stays inside the
representable years, and whose UTC year is at least 1000 (below that the
platform `%Y` drops the zero padding), `as_sql_datetime2_126` renders the
`CONVERT` expression around the UTC-normalized text: the embedded text
reparses as a naive datetime (offset suffix removed) equal to the original
instant with the offset subtracted, and its fractional part has exactly 7
digits. -/
theorem as_sql_datetime2_126_utc (s : String) (dt du : PyDT) (x : Int)
    (_hm : isoMatch (pyStrip s) = true)
    (hp : fromisoformatOpt (preNormalize s) = some dt)
    (ho : dt.off = some x)
    (hu : toUTCOpt dt = some du)
    (hy : 1000 ≤ du.year) :
    as_sql_datetime2_126 s = convWrap (strfFrac7 du) ∧
    embeddedText (as_sql_datetime2_126 s) = strfFrac7 du ∧
    (fracOf (strfFrac7 du)).length = 7 ∧
    fromisoformatOpt (strfFrac7 du) = some du ∧
    du.off = none ∧
    instantMin du = instantMin dt - x ∧
    du.second = dt.second ∧ du.micro = dt.micro := by
  have hv := parse_validB _ _ hp
  obtain ⟨hvu, hoN, hsec, hmic, hinst⟩ := toUTC_spec dt du x hv ho hu
  have h1 : as_sql_datetime2_126 s = convWrap (strfFrac7 du) := by
    simp only [as_sql_datetime2_126, hp, hu]
  refine ⟨h1, by rw [h1, embeddedText_convWrap], ?_, parse_strf du hvu hoN hy, hoN, hinst,
    hsec, hmic⟩
  rw [fracOf_strfFrac7, frac7_length]

/-- Claim C1 witness: the spec's worked example renders the UTC text
`2024-01-05T08:00:00.0000000`. -/
theorem as_sql_datetime2_126_utc_witness :
    as_sql_datetime2_126 "2024-01-05T10:00:00+02:00" =
      convWrap "2024-01-05T08:00:00.0000000" :=
  (as_sql_datetime2_126_utc "2024-01-05T10:00:00+02:00"
    ⟨2024, 1, 5, 10, 0, 0, 0, some 120⟩ ⟨2024, 1, 5, 8, 0, 0, 0, none⟩ 120
    (by decide) (by decide) (by decide) (by decide) (by decide)).1.trans (by decide)

/-- Claim C1 counterexample, two in-pattern offset-bearing inputs that
parse as real calendar instants yet break the claimed rendering.  First,
`"0001-01-01T00:00:00+02:00"`: the UTC conversion overflows the
representable years, the code falls back, and the rendered expression
embeds the input verbatim - offset suffix kept and no 7-digit fraction.
Second, `"0099-01-05T10:00:00+02:00"`: the conversion succeeds, but the
platform `%Y` leaves the UTC year 99 unpadded, so the embedded text
`99-01-05T08:00:00.0000000` is not the claimed 4-digit-year form and no
longer reparses. -/
theorem as_sql_datetime2_126_utc_cex :
    isoMatch "0001-01-01T00:00:00+02:00" = true ∧
    fromisoformatOpt "0001-01-01T00:00:00+02:00" =
      some ⟨1, 1, 1, 0, 0, 0, 0, some 120⟩ ∧
    embeddedText (as_sql_datetime2_126 "0001-01-01T00:00:00+02:00") =
      "0001-01-01T00:00:00+02:00" ∧
    (fracOf (embeddedText (as_sql_datetime2_126 "0001-01-01T00:00:00+02:00"))).length ≠ 7 ∧
    isoMatch "0099-01-05T10:00:00+02:00" = true ∧
    fromisoformatOpt "0099-01-05T10:00:00+02:00" =
      some ⟨99, 1, 5, 10, 0, 0, 0, some 120⟩ ∧
    toUTCOpt ⟨99, 1, 5, 10, 0, 0, 0, some 120⟩ = some ⟨99, 1, 5, 8, 0, 0, 0, none⟩ ∧
    embeddedText (as_sql_datetime2_126 "0099-01-05T10:00:00+02:00") =
      "99-01-05T08:00:00.0000000" ∧
    fromisoformatOpt (embeddedText (as_sql_datetime2_126 "0099-01-05T10:00:00+02:00")) =
      none := by
  decide

/-- Claim C6 (amended): when the stripped input matches the ISO pattern but
fails to parse as a real calendar instant, `as_sql_datetime2_126` wraps the
pre-normalized text - the stripped input after the midnight expansion and
the `Z -> +00:00` substitution - not the stripped input verbatim. -/
theorem as_sql_datetime2_126_fallback (s : String)
    (_hm : isoMatch (pyStrip s) = true)
    (hp : fromisoformatOpt (preNormalize s) = none) :
    as_sql_datetime2_126 s = convWrap (preNormalize s) := by
  simp only [as_sql_datetime2_126, hp]

/-- Claim C6 witness: the invalid calendar date `"2024-02-30"` degrades to
the fallback expression around the midnight-expanded text. -/
theorem as_sql_datetime2_126_fallback_witness :
    as_sql_datetime2_126 "2024-02-30" = convWrap "2024-02-30T00:00:00" :=
  (as_sql_datetime2_126_fallback "2024-02-30" (by decide) (by decide)).trans (by decide)

/-- Claim C6 counterexample: for `"2024-02-30"` (pattern-matching, parse
fails) the rendered expression does not wrap the trimmed input verbatim :
the embedded text is the midnight-expanded `2024-02-30T00:00:00`. -/
theorem as_sql_datetime2_126_fallback_cex :
    isoMatch (pyStrip "2024-02-30") = true ∧
    fromisoformatOpt (preNormalize "2024-02-30") = none ∧
    as_sql_datetime2_126 "2024-02-30" ≠ convWrap (pyStrip "2024-02-30") ∧
    embeddedText (as_sql_datetime2_126 "2024-02-30") = "2024-02-30T00:00:00" := by
  decide

/-! ### The NULL sentinel -/

/-- Claim C3: an absent value, a value whose trimmed form is empty, or a
value whose trimmed form uppercases to NULL, renders as the SQL null
keyword. -/
theorem to_sql_literal_null (val : Option String)
    (h : val = none ∨ ∃ s, val = some s ∧
      (pyStrip s = "" ∨ pyUpper (pyStrip s) = "NULL")) :
    to_sql_literal val = "NULL" := by
  rcases h with rfl | ⟨s, rfl, hs⟩
  · rfl
  · simp only [to_sql_literal]
    rw [if_pos hs]

/-- Claim C3 witness: `" Null "` renders as NULL. -/
theorem to_sql_literal_null_witness : to_sql_literal (some " Null ") = "NULL" :=
  to_sql_literal_null (some " Null ") (Or.inr ⟨" Null ", rfl, Or.inr (by decide)⟩)

/-! ### Numeric pass-through -/

theorem mk_data (s : String) : String.mk s.data = s := rfl

theorem numeric_split (l : List Char)
    (hcase : l.dropWhile isDig = [] ∨
      ∃ tl2, l.dropWhile isDig = '.' :: tl2 ∧ tl2.all isDig = true) :
    ∀ x ∈ l, isDig x = true ∨ x = '.' := by
  intro x hx
  have hsplit := List.takeWhile_append_dropWhile (p := isDig) (l := l)
  rw [← hsplit] at hx
  rcases List.mem_append.mp hx with hx1 | hx2
  · exact Or.inl (List.mem_takeWhile_imp hx1)
  · rcases hcase with he | ⟨tl2, he, hall⟩
    · rw [he] at hx2; cases hx2
    · rw [he] at hx2
      rcases List.mem_cons.mp hx2 with rfl | hx3
      · exact Or.inr rfl
      · rw [List.all_eq_true] at hall
        exact Or.inl (hall x hx3)

theorem numericMatch_shape (s : String) (h : numericMatch s = true) :
    ∃ c t, s.data = c :: t ∧ (c = '+' ∨ c = '-' ∨ isDig c = true) ∧
      (∀ x ∈ t, isDig x = true ∨ x = '.') := by
  unfold numericMatch at h
  cases hd : s.data with
  | nil => rw [hd] at h; simp at h
  | cons c rest =>
    rw [hd] at h
    simp only [] at h
    by_cases hsign : c = '+' ∨ c = '-'
    · rw [if_pos hsign] at h
      rw [Bool.and_eq_true] at h
      obtain ⟨h1, h2⟩ := h
      refine ⟨c, rest, rfl, by tauto, ?_⟩
      apply numeric_split
      cases htl : rest.dropWhile isDig with
      | nil => exact Or.inl rfl
      | cons d tl2 =>
        rw [htl] at h2
        simp only [Bool.and_eq_true, beq_iff_eq] at h2
        have hdot : d = '.' := by tauto
        have hall : tl2.all isDig = true := by tauto
        exact Or.inr ⟨tl2, by rw [hdot], hall⟩
    · rw [if_neg hsign] at h
      rw [Bool.and_eq_true] at h
      obtain ⟨h1, h2⟩ := h
      have hc : isDig c = true := by
        by_contra hcc
        rw [Bool.not_eq_true] at hcc
        rw [List.takeWhile_cons, hcc] at h1
        simp at h1
      refine ⟨c, rest, rfl, Or.inr (Or.inr hc), ?_⟩
      have hall2 : ∀ x ∈ c :: rest, isDig x = true ∨ x = '.' := by
        apply numeric_split
        cases htl : (c :: rest).dropWhile isDig with
        | nil => exact Or.inl rfl
        | cons d tl2 =>
          rw [htl] at h2
          simp only [Bool.and_eq_true, beq_iff_eq] at h2
          have hdot : d = '.' := by tauto
          have hall : tl2.all isDig = true := by tauto
          exact Or.inr ⟨tl2, by rw [hdot], hall⟩
      exact fun x hx => hall2 x (List.mem_cons_of_mem c hx)

theorem isoMatch_fifth_dash (s : String) (h : isoMatch s = true) :
    ∃ a b c d r, s.data = a :: b :: c :: d :: '-' :: r := by
  unfold isoMatch at h
  obtain ⟨a, b, c, d, e, rest, hl⟩ :
      ∃ a b c d e rest, s.data = a :: b :: c :: d :: e :: rest := by
    rcases hl : s.data with _ | ⟨a, _ | ⟨b, _ | ⟨c, _ | ⟨d, _ | ⟨e, rest⟩⟩⟩⟩⟩
    · rw [hl] at h; simp at h
    · rw [hl] at h; simp at h
    · rw [hl] at h; simp at h
    · rw [hl] at h; simp at h
    · rw [hl] at h; simp at h
    · exact ⟨a, b, c, d, e, rest, rfl⟩
  rw [hl] at h
  simp only [Bool.and_eq_true, beq_iff_eq] at h
  have he : e = '-' := by tauto
  exact ⟨a, b, c, d, rest, by rw [hl, he]⟩

/-- Claim C4: a string matching the anchored numeric pattern is passed
through unchanged - it contains no surrounding whitespace, is not the NULL
sentinel, and cannot match the ISO date pattern, so the numeric branch
returns the trimmed (identical) string. -/
theorem to_sql_literal_numeric (s : String) (h : numericMatch s = true) :
    to_sql_literal (some s) = s := by
  obtain ⟨c, t, hd, hc, ht⟩ := numericMatch_shape s h
  have hchars : ∀ x ∈ s.data, x = '+' ∨ x = '-' ∨ x = '.' ∨ isDig x = true := by
    intro x hx
    rw [hd] at hx
    rcases List.mem_cons.mp hx with rfl | hx2
    · tauto
    · rcases ht x hx2 with h1 | h1 <;> tauto
  have hstrip : pyStrip s = s := by
    unfold pyStrip
    rw [pyStripL_eq_self s.data (fun x hx => not_space_of_numchar x (hchars x hx)), mk_data]
  have hne : pyStrip s ≠ "" := by
    rw [hstrip]
    intro hemp
    have hh := congrArg String.data hemp
    rw [hd] at hh
    simp at hh
  have hupper : pyUpper (pyStrip s) ≠ "NULL" := by
    rw [hstrip]
    intro hnull
    have hdata := congrArg String.data hnull
    unfold pyUpper at hdata
    rw [hd] at hdata
    simp only [List.map_cons] at hdata
    have hhead : upChar c = 'N' := ((List.cons.injEq _ _ _ _).mp hdata).1
    rcases hc with rfl | rfl | hdig
    · exact absurd hhead (by decide)
    · exact absurd hhead (by decide)
    · have hb := (isDig_iff c).mp hdig
      have hcc : upChar c = c := by
        unfold upChar
        rw [if_neg (by omega)]
      rw [hcc] at hhead
      have h78 : c.toNat = 78 := by rw [hhead]; decide
      omega
  have hiso : isoMatch (pyStrip s) = false := by
    rw [hstrip]
    by_contra hi
    rw [Bool.not_eq_false] at hi
    obtain ⟨a, b, c2, d2, r, hd2⟩ := isoMatch_fifth_dash s hi
    have hmem : '-' ∈ t := by
      rw [hd] at hd2
      injection hd2 with h1 h2
      rw [h2]
      simp
    rcases ht '-' hmem with hx | hx
    · exact absurd hx (by decide)
    · exact absurd hx (by decide)
  have hnum : numericMatch (pyStrip s) = true := by rw [hstrip]; exact h
  simp only [to_sql_literal]
  rw [if_neg (by tauto : ¬(pyStrip s = "" ∨ pyUpper (pyStrip s) = "NULL"))]
  rw [hiso, hnum]
  simp [hstrip]

/-- Claim C4 witness: `"-12.5"` is passed through unchanged. -/
theorem to_sql_literal_numeric_witness : to_sql_literal (some "-12.5") = "-12.5" :=
  to_sql_literal_numeric "-12.5" (by decide)

/-! ### String escaping and its inverse -/

theorem collapseQ_cons_ne (c : Char) (t : List Char) (hc : c ≠ qc) :
    collapseQ (c :: t) = (collapseQ t).map (fun l => c :: l) := by
  cases t with
  | nil => simp [collapseQ, hc]
  | cons c2 r => simp [collapseQ, hc]

theorem collapseQ_escQ (l : List Char) : collapseQ (escQ l) = some l := by
  induction l with
  | nil => rfl
  | cons c r ih =>
    by_cases hc : c = qc
    · subst hc
      rw [show escQ (qc :: r) = qc :: qc :: escQ r from by simp [escQ]]
      simp [collapseQ, ih]
    · rw [show escQ (c :: r) = c :: escQ r from by simp [escQ, hc]]
      rw [collapseQ_cons_ne c (escQ r) hc, ih]
      rfl

theorem escQ_count (l : List Char) : (escQ l).count qc = 2 * l.count qc := by
  induction l with
  | nil => rfl
  | cons c r ih =>
    by_cases hc : c = qc
    · subst hc
      rw [show escQ (qc :: r) = qc :: qc :: escQ r from by simp [escQ]]
      simp [List.count_cons, ih]
      omega
    · rw [show escQ (c :: r) = c :: escQ r from by simp [escQ, hc]]
      simp [List.count_cons, hc, ih]

theorem space_ne_qc (c : Char) (h : pyIsSpace c = true) : (c == qc) = false := by
  rw [beq_eq_false_iff_ne]
  intro he
  subst he
  exact absurd h (by decide)

theorem count_dropWhile_space (l : List Char) :
    (l.dropWhile pyIsSpace).count qc = l.count qc := by
  induction l with
  | nil => rfl
  | cons c t ih =>
    by_cases hsp : pyIsSpace c = true
    · rw [List.dropWhile_cons, hsp]
      simp only [if_true, ih, List.count_cons, space_ne_qc c hsp]
      simp
    · rw [List.dropWhile_cons]
      simp [hsp]

theorem count_pyStripL (l : List Char) : (pyStripL l).count qc = l.count qc := by
  unfold pyStripL
  rw [List.count_reverse, count_dropWhile_space, List.count_reverse, count_dropWhile_space]

/-- Claim C5 (amended): a value hitting the string branch renders as
`N'...'` around the trimmed text with every quote doubled; the inverse
transformation recovers the trimmed input (not the raw input), and the
quote count of the escaped text is exactly twice that of the input, whose
quotes survive trimming. -/
theorem to_sql_literal_string (s : String)
    (h1 : pyStrip s ≠ "") (h2 : pyUpper (pyStrip s) ≠ "NULL")
    (h3 : isoMatch (pyStrip s) = false) (h4 : numericMatch (pyStrip s) = false) :
    to_sql_literal (some s) = String.mk ('N' :: qc :: (escQ (pyStrip s).data ++ [qc])) ∧
    unescapeN (to_sql_literal (some s)) = some (pyStrip s) ∧
    (escQ (pyStrip s).data).count qc = 2 * ((pyStrip s).data.count qc) ∧
    (pyStrip s).data.count qc = s.data.count qc := by
  have he : to_sql_literal (some s) =
      String.mk ('N' :: qc :: (escQ (pyStrip s).data ++ [qc])) := by
    simp only [to_sql_literal]
    rw [if_neg (by tauto), h3, h4]
    simp
  refine ⟨he, ?_, escQ_count _, count_pyStripL s.data⟩
  rw [he]
  simp [unescapeN, List.getLast?_concat, List.dropLast_concat, collapseQ_escQ, mk_data]

/-- Claim C5 witness: the quoted value with an embedded quote round-trips
through escaping and unescaping. -/
theorem to_sql_literal_string_witness :
    unescapeN (to_sql_literal (some (String.mk ['a', qc, 'b']))) =
      some (String.mk ['a', qc, 'b']) :=
  ((to_sql_literal_string (String.mk ['a', qc, 'b'])
    (by decide) (by decide) (by decide) (by decide)).2.1).trans (by decide)

/-- Claim C5 counterexample: `" a "` hits the string branch, but unescaping
the rendered literal yields the trimmed `"a"`, not the original input. -/
theorem to_sql_literal_string_cex :
    pyStrip " a " ≠ "" ∧ pyUpper (pyStrip " a ") ≠ "NULL" ∧
    isoMatch (pyStrip " a ") = false ∧ numericMatch (pyStrip " a ") = false ∧
    unescapeN (to_sql_literal (some " a ")) = some "a" ∧ (" a " : String) ≠ "a" := by
  decide

/-! ### Column building -/

/-- Claim C7: with a nonempty key name and generation enabled, the key is
first and occurs exactly once, wherever (or whether) it occurs in the
header. -/
theorem build_columns_key_first (header exclude : List String) (k : String) (hk : k ≠ "") :
    ((build_columns header exclude (some k) true).head? = some k) ∧
    (build_columns header exclude (some k) true).count k = 1 := by
  unfold build_columns
  have hbeq : (k == "") = false := by rwa [beq_eq_false_iff_ne]
  simp only [hbeq, Bool.not_false, Bool.and_self, if_true]
  by_cases hmem : k ∈ header.filter (fun c => decide (c ≠ "" ∧ c ∉ exclude))
  · rw [if_pos hmem]
    refine ⟨rfl, ?_⟩
    have hzero : ((header.filter (fun c => decide (c ≠ "" ∧ c ∉ exclude))).filter
        (fun c => decide (c ≠ k))).count k = 0 := by
      rw [List.count_eq_zero]
      intro hmem2
      have hfk := (List.mem_filter.mp hmem2).2
      simp at hfk
    rw [List.count_cons_self, hzero]
  · rw [if_neg hmem]
    refine ⟨rfl, ?_⟩
    rw [List.count_cons_self, List.count_eq_zero.mpr hmem]

/-- Claim C7 witness. -/
theorem build_columns_key_first_witness :
    (build_columns ["Name", "Id"] [] (some "Id") true).head? = some "Id" ∧
    (build_columns ["Name", "Id"] [] (some "Id") true).count "Id" = 1 :=
  build_columns_key_first ["Name", "Id"] [] "Id" (by decide)

/-- Claim C8 (amended): the Column Set is duplicate-free whenever the source
header is; `build_columns` deduplicates only the synthetic key column, so a
header with repeated names keeps its repetitions. -/
theorem build_columns_nodup (header exclude : List String) (idc : Option String)
    (gen : Bool) (h : header.Nodup) :
    (build_columns header exclude idc gen).Nodup := by
  unfold build_columns
  have hf : (header.filter (fun c => decide (c ≠ "" ∧ c ∉ exclude))).Nodup := h.filter _
  cases idc with
  | none => exact hf
  | some k =>
    simp only []
    by_cases hg : ((!(k == "")) && gen) = true
    · rw [if_pos hg]
      by_cases hmem : k ∈ header.filter (fun c => decide (c ≠ "" ∧ c ∉ exclude))
      · rw [if_pos hmem]
        refine List.nodup_cons.mpr ⟨?_, hf.filter _⟩
        intro hmem2
        have hfk := (List.mem_filter.mp hmem2).2
        simp at hfk
      · rw [if_neg hmem]
        exact List.nodup_cons.mpr ⟨hmem, hf⟩
    · rw [if_neg hg]
      exact hf

/-- Claim C8 witness: a duplicate-free header yields a duplicate-free
Column Set. -/
theorem build_columns_nodup_witness :
    (build_columns ["Name", "Id"] ["RowVersion"] (some "Id") true).Nodup :=
  build_columns_nodup ["Name", "Id"] ["RowVersion"] (some "Id") true (by decide)

/-- Claim C8 counterexample: a header with a duplicated name produces a
Column Set with the duplicate intact. -/
theorem build_columns_nodup_cex :
    build_columns ["A", "A"] [] none false = ["A", "A"] ∧
    ¬ (build_columns ["A", "A"] [] none false).Nodup := by
  decide

/-- Claim C10: an empty (falsy) header name never survives into the Column
Set, whatever the exclusion list and key settings. -/
theorem build_columns_no_empty (header exclude : List String) (idc : Option String)
    (gen : Bool) : "" ∉ build_columns header exclude idc gen := by
  unfold build_columns
  have hf : ("" : String) ∉ header.filter (fun c => decide (c ≠ "" ∧ c ∉ exclude)) := by
    intro hm
    have hmm := (List.mem_filter.mp hm).2
    simp at hmm
  cases idc with
  | none => exact hf
  | some k =>
    simp only []
    by_cases hg : ((!(k == "")) && gen) = true
    · have hk : k ≠ "" := by
        simp only [Bool.and_eq_true, Bool.not_eq_true', beq_eq_false_iff_ne] at hg
        exact hg.1
      rw [if_pos hg]
      by_cases hmem : k ∈ header.filter (fun c => decide (c ≠ "" ∧ c ∉ exclude))
      · rw [if_pos hmem]
        intro hm
        rcases List.mem_cons.mp hm with he | hm2
        · exact hk he.symm
        · exact hf (List.mem_filter.mp hm2).1
      · rw [if_neg hmem]
        intro hm
        rcases List.mem_cons.mp hm with he | hm2
        · exact hk he.symm
        · exact hf hm2
    · rw [if_neg hg]
      exact hf

/-! ### Chunk-size normalization -/

/-- Claim C9: a zero or negative configured chunk size is normalized to the
safe minimum 1 before partitioning. -/
theorem chunk_size_normalized (c : Int) (h : c ≤ 0) :
    effective_chunk_size c = 1 ∧ 0 < effective_chunk_size c := by
  unfold effective_chunk_size
  omega

/-- Claim C9 witness. -/
theorem chunk_size_normalized_witness :
    effective_chunk_size (-7) = 1 ∧ 0 < effective_chunk_size (-7) :=
  chunk_size_normalized (-7) (by decide)

/-! ### Chunking -/

theorem mainParts_zero (cs : Nat) (h : 0 < cs) : mainParts 0 cs = 0 := by
  unfold mainParts
  exact Nat.div_eq_of_lt (by omega)

theorem mainParts_succ (n cs : Nat) (hn : 1 ≤ n) (h : 0 < cs) :
    mainParts n cs = mainParts (n - cs) cs + 1 := by
  unfold mainParts
  rw [show n + cs - 1 = (n - 1) + cs from by omega, Nat.add_div_right _ h]
  by_cases hN : n ≤ cs
  · rw [Nat.div_eq_of_lt (show n - 1 < cs by omega),
      show n - cs = 0 from by omega,
      Nat.div_eq_of_lt (show 0 + cs - 1 < cs by omega)]
  · rw [show n - cs + cs - 1 = (n - cs - 1) + cs from by omega, Nat.add_div_right _ h,
      show n - 1 = (n - cs - 1) + cs from by omega, Nat.add_div_right _ h]

theorem mainChunks_nil {α : Type} (cs : Nat) (h : 0 < cs) :
    mainChunks ([] : List α) cs = [] := by
  unfold mainChunks
  rw [show ([] : List α).length = 0 from rfl, mainParts_zero cs h]
  rfl

theorem map_congr_fun {α β : Type} (f g : α → β) (l : List α) (h : ∀ a, f a = g a) :
    l.map f = l.map g := by
  rw [funext h]

theorem mainChunks_cons {α : Type} (rows : List α) (cs : Nat) (hr : rows ≠ [])
    (h : 0 < cs) :
    mainChunks rows cs = rows.take cs :: mainChunks (rows.drop cs) cs := by
  have hN : 1 ≤ rows.length := List.length_pos.mpr hr
  unfold mainChunks
  rw [List.length_drop, mainParts_succ rows.length cs hN h, List.range_succ_eq_map]
  rw [List.map_cons, List.map_map]
  congr 1
  · simp only [Nat.zero_mul, List.drop_zero, Nat.zero_add]
    apply take_eq_of_min
    omega
  · apply map_congr_fun
    intro i
    simp only [Function.comp_apply]
    have hdd : (rows.drop cs).drop (i * cs) = rows.drop (i * cs + cs) := by
      rw [List.drop_drop]
      congr 1
      omega
    rw [hdd]
    have hmul : Nat.succ i * cs = i * cs + cs := Nat.succ_mul i cs
    rw [hmul]
    have harith : ∀ a : Nat, min (a + cs + cs) rows.length - (a + cs) =
        min (a + cs) (rows.length - cs) - a := fun a => by omega
    rw [harith (i * cs)]

theorem mainChunks_join_aux {α : Type} (cs : Nat) (hcs : 0 < cs) :
    ∀ (n : Nat) (rows : List α), rows.length ≤ n → (mainChunks rows cs).flatten = rows := by
  intro n
  induction n with
  | zero =>
    intro rows hr
    have h0 : rows = [] := by
      cases rows with
      | nil => rfl
      | cons a t => simp at hr
    subst h0
    rw [mainChunks_nil cs hcs]
    rfl
  | succ n ih =>
    intro rows hr
    cases hrows : rows with
    | nil => rw [mainChunks_nil cs hcs]; rfl
    | cons a t =>
      subst hrows
      rw [mainChunks_cons (a :: t) cs (by simp) hcs, List.flatten_cons]
      rw [ih ((a :: t).drop cs) (by rw [List.length_drop]; simp at hr ⊢; omega)]
      exact List.take_append_drop cs (a :: t)

/-- Claim C2: for a positive chunk size the loop in `main` produces
`ceil(N / cs)` chunks; chunk `i` is the slice starting at `i * cs` of at
most `cs` rows, every chunk but possibly the last has exactly `cs` rows,
and the chunks concatenate back to the original row sequence. -/
theorem main_chunking {α : Type} (rows : List α) (cs : Nat) (h : 0 < cs) :
    (mainChunks rows cs).length = (rows.length + cs - 1) / cs ∧
    (∀ i, i < mainParts rows.length cs →
      (mainChunks rows cs)[i]? = some ((rows.drop (i * cs)).take cs)) ∧
    (∀ i, i + 1 < mainParts rows.length cs →
      ((rows.drop (i * cs)).take cs).length = cs) ∧
    (mainChunks rows cs).flatten = rows := by
  refine ⟨?_, ?_, ?_, mainChunks_join_aux cs h rows.length rows le_rfl⟩
  · simp [mainChunks, mainParts]
  · intro i hi
    unfold mainChunks
    rw [List.getElem?_map, List.getElem?_range hi]
    simp only [Option.map_some', Option.some.injEq]
    apply take_eq_of_min
    rw [List.length_drop]
    have harith : ∀ a : Nat, min (min (a + cs) rows.length - a) (rows.length - a) =
        min cs (rows.length - a) := fun a => by omega
    exact harith (i * cs)
  · intro i hi
    have hle : i + 2 ≤ (rows.length + cs - 1) / cs := hi
    have hmul : (i + 2) * cs ≤ rows.length + cs - 1 :=
      (Nat.le_div_iff_mul_le h).mp hle
    rw [List.length_take, List.length_drop]
    have h2 : (i + 2) * cs = i * cs + cs + cs := by ring
    rw [h2] at hmul
    have harith : ∀ a : Nat, a + cs + cs ≤ rows.length + cs - 1 →
        min cs (rows.length - a) = cs := fun a ha => by omega
    exact harith (i * cs) hmul

/-- Claim C2 witness: five rows in chunks of two give three chunks that
concatenate back to the input. -/
theorem main_chunking_witness :
    (mainChunks [1, 2, 3, 4, 5] 2).length = (5 + 2 - 1) / 2 ∧
    (mainChunks [1, 2, 3, 4, 5] 2).flatten = [1, 2, 3, 4, 5] :=
  ⟨(main_chunking [1, 2, 3, 4, 5] 2 (by decide)).1,
   (main_chunking [1, 2, 3, 4, 5] 2 (by decide)).2.2.2⟩
